import Mathlib

/-!
Verification development for the graphdrs graph-drawing engine.

The Rust sources are shallowly embedded as Lean definitions:
machine integers (`usize`, `u8`) are modelled as `Nat` with explicit
wraparound `% 2 ^ 64` / `% 2 ^ 256` where overflow matters (release-mode
wrapping semantics), `f32` coordinates are modelled over exact rationals,
fallible operations return `Except` / `Option`, and the stateful
`GraphInterface` / `SVGWriter` methods are modelled as explicit
state-passing functions.
-/

namespace GraphDrs

/-- Rational 2D vector modelling macroquad `Vec2` (a pair of `f32`), with
exact rational arithmetic in place of floating point. -/
structure Q2 where
  x : ℚ
  y : ℚ
deriving DecidableEq

def Q2.add (a b : Q2) : Q2 := ⟨a.x + b.x, a.y + b.y⟩

instance : Add Q2 := ⟨Q2.add⟩

def Q2.sub (a b : Q2) : Q2 := ⟨a.x - b.x, a.y - b.y⟩

instance : Sub Q2 := ⟨Q2.sub⟩

/-- macroquad `Vec2::ZERO`. -/
def Q2.zero : Q2 := ⟨0, 0⟩

/-- Squared Euclidean distance.  The source compares `a.distance(b) < r`;
since a Euclidean distance is nonnegative, that comparison is equivalent to
`0 < r ∧ distSq a b < r * r`, which avoids square roots over `ℚ`. -/
def distSq (a b : Q2) : ℚ := (a.x - b.x) ^ 2 + (a.y - b.y) ^ 2

/-- `clamp` on one coordinate, as glam `f32` clamp: `self.max(min).min(max)`. -/
def clampQ (v lo hi : ℚ) : ℚ := min (max v lo) hi

/-- glam `Vec2::clamp`, componentwise. -/
def Q2.clamp (v lo hi : Q2) : Q2 := ⟨clampQ v.x lo.x hi.x, clampQ v.y lo.y hi.y⟩

/-- `DrawState` from src/graph_interface.rs. -/
inductive DrawState where
  | Default
  | Highlighted
  | Unhighlighted
  | Hidden
deriving DecidableEq

/-- `cycle_drawstate` from src/graph_interface.rs (identical for vertices and
edges). -/
def DrawState.cycle : DrawState → DrawState
  | .Default => .Highlighted
  | .Highlighted => .Unhighlighted
  | .Unhighlighted => .Hidden
  | .Hidden => .Default

/-- `VertexProperties` from src/graph_interface.rs. -/
structure VertexProperties where
  position : Q2
  radius : ℚ
  draw_state : DrawState
deriving DecidableEq

/-- `VertexProperties::default()`: position `Vec2::ZERO`, radius
`main_size + border_size = 12 + 5 = 17` (from `VertexDrawConfig::default()`
in src/graph_drawer.rs), draw state `Default`. -/
def VertexProperties.default : VertexProperties := ⟨Q2.zero, 17, .Default⟩

instance : Inhabited VertexProperties := ⟨VertexProperties.default⟩

/-- `EdgeProperties` from src/graph_interface.rs. -/
structure EdgeProperties where
  vertices : Nat × Nat
  width : ℚ
  draw_state : DrawState
deriving DecidableEq

/-- `EdgeProperties::default()`: endpoints `(0, 0)`, width `5`
(from `EdgeDrawConfig::default()` in src/graph_drawer.rs), draw state
`Default`. -/
def EdgeProperties.default : EdgeProperties := ⟨(0, 0), 5, .Default⟩

/-- `Graph` from src/graph.rs. -/
structure Graph where
  vertices : Nat
  edges : List (Nat × Nat)
deriving DecidableEq

/-- `Graph6ParseError` from src/graph.rs.  The invalid character is kept as
its byte value. -/
inductive Graph6ParseError where
  | EmptyString
  | InvalidStartCharacter (c : Nat)
  | UnexpectedStringEnd
  | UnsupportedGraphSize (supported_size : Nat)
deriving DecidableEq

/-- `graph6_number_of_vertices` from src/graph.rs.  Input is the byte list of
the Rust `&str` (each byte `< 256`).  The `u8` subtraction `byte - 63`
widened to `usize` wraps modulo 256, hence `(b + 193) % 256`.  `62` is the
ASCII code of the escape byte `b'>'`.  When the first byte is not `>` the
indexed byte is byte 0, which exists because the list is nonempty; the
source only guards the index after skipping the 10-byte escape prefix. -/
def graph6_number_of_vertices (g6_bytes : List Nat) : Except Graph6ParseError Nat :=
  match g6_bytes with
  | [] => .error .EmptyString
  | start_char :: _ =>
    if ¬(63 ≤ start_char ∧ start_char ≤ 126) ∧ start_char ≠ 62 then
      .error (.InvalidStartCharacter start_char)
    else
      let index := if start_char = 62 then 10 else 0
      match g6_bytes.get? index with
      | none => .error .UnexpectedStringEnd
      | some b =>
        if b < 126 then .ok ((b + 193) % 256)
        else .error (.UnsupportedGraphSize 62)

/-- The six bit masks probed per graph6 byte, most significant first:
`current_bit` starts at `1 << 5` and is shifted right down to `1`. -/
def bitMasks : List Nat := [32, 16, 8, 4, 2, 1]

/-- Inner bit loop of `parse_graph6_string` (src/graph.rs lines 43-59) on one
byte: for each mask, push edge `(current_neighbour, current_vertex)` when the
bit is set, advance the `(current_vertex, current_neighbour)` counters, and
stop everything (the `Bool` result, modelling `break 'outer`) as soon as
`current_vertex >= vertices`. -/
def stepBits (vertices bits : Nat) :
    List Nat → Nat → Nat → List (Nat × Nat) → List (Nat × Nat) × Nat × Nat × Bool
  | [], cv, cn, acc => (acc, cv, cn, false)
  | m :: rest, cv, cn, acc =>
    let acc' := if Nat.land bits m ≠ 0 then acc ++ [(cn, cv)] else acc
    let cv2 := if cv ≤ cn + 1 then cv + 1 else cv
    let cn2 := if cv ≤ cn + 1 then 0 else cn + 1
    if vertices ≤ cv2 then (acc', cv2, cn2, true)
    else stepBits vertices bits rest cv2 cn2 acc'

/-- Outer byte loop of `parse_graph6_string` (src/graph.rs lines 39-62):
consume the remaining bytes one at a time; `current_bits = byte - 63` wraps
as a `u8`. -/
def parseBytes (vertices : Nat) :
    List Nat → Nat → Nat → List (Nat × Nat) → List (Nat × Nat)
  | [], _, _, acc => acc
  | b :: rest, cv, cn, acc =>
    match stepBits vertices ((b + 193) % 256) bitMasks cv cn acc with
    | (acc', cv', cn', done) =>
      if done then acc' else parseBytes vertices rest cv' cn' acc'

/-- `parse_graph6_string` from src/graph.rs.  The unguarded index
`g6_bytes[start_index]` at line 21 reads byte 0; it is modelled by `headD 0`,
legitimate because that line is only reached after
`graph6_number_of_vertices` succeeded, which requires a nonempty input
(proved below).  The edge bit loop starts with `current_vertex = 1`,
`current_neighbour = 0`. -/
def parse_graph6_string (g6_bytes : List Nat) : Except Graph6ParseError Graph :=
  match graph6_number_of_vertices g6_bytes with
  | .error e => .error e
  | .ok vertices =>
    let start0 := if g6_bytes.headD 0 = 62 then 10 else 0
    if vertices ≤ 62 then
      .ok ⟨vertices, parseBytes vertices (g6_bytes.drop (start0 + 1)) 1 0 []⟩
    else if vertices ≤ 64 then
      .ok ⟨vertices, parseBytes vertices (g6_bytes.drop (start0 + 4)) 1 0 []⟩
    else .error (.UnsupportedGraphSize 64)

/-- The state of `GraphInterface` from src/graph_interface.rs.  The
`click_handler` field (a timing-based gesture classifier over `Instant`) is
not part of the state model; its two derived predicates `mouse_drag()` and
`mouse_click()` are supplied as oracle inputs of a pointer sample, and the
raw mouse position likewise.  `drag_state` stores `(vertex, mouse_position)`. -/
structure GraphInterface where
  vertex_properties : List VertexProperties
  edge_properties : List EdgeProperties
  dragged_vertex : Option Nat
  hovered_vertex : Option Nat
  hovered_edge : Option Nat
  drag_state : Option (Nat × Q2)
  highlight_graph_history : List Graph
  current_highlight_graph : Option Nat
deriving DecidableEq

/-- One pointer sample: the mouse position together with the gesture
classifier's two derived predicates for this frame. -/
structure MouseSample where
  position : Q2
  drag : Bool
  click : Bool
deriving DecidableEq

/-- `GraphInterface::get_position`: the vertex position, or `Vec2::ZERO` as a
sentinel when the index is out of range. -/
def GraphInterface.get_position (s : GraphInterface) (vertex : Nat) : Q2 :=
  match s.vertex_properties.get? vertex with
  | some vp => vp.position
  | none => Q2.zero

/-- `GraphInterface::set_position`: overwrite in place when in range,
otherwise grow the collection with `VertexProperties::default()` entries up
to index `vertex` and append the positioned entry. -/
def GraphInterface.set_position (s : GraphInterface) (vertex : Nat) (position : Q2) :
    GraphInterface :=
  if h : vertex < s.vertex_properties.length then
    { s with vertex_properties := (s.vertex_properties.set vertex
        { s.vertex_properties.get ⟨vertex, h⟩ with position := position }) }
  else
    { s with vertex_properties :=
        s.vertex_properties
          ++ List.replicate (vertex - s.vertex_properties.length) VertexProperties.default
          ++ [{ VertexProperties.default with position := position }] }

/-- The hit test `position.distance(v.position) < v.radius` of
`get_vertex_at_position`, over exact arithmetic: a nonnegative distance is
strictly below `r` iff `0 < r` and the squared distance is below `r * r`. -/
def vertexHit (position : Q2) (vp : VertexProperties) : Bool :=
  decide (0 < vp.radius ∧ distSq position vp.position < vp.radius * vp.radius)

/-- Search loop of `get_vertex_at_position`: first index (ascending) whose
hit test succeeds. -/
def vertexAtAux (position : Q2) : Nat → List VertexProperties → Option Nat
  | _, [] => none
  | index, vp :: rest =>
    if vertexHit position vp then some index else vertexAtAux position (index + 1) rest

/-- `GraphInterface::get_vertex_at_position`. -/
def GraphInterface.get_vertex_at_position (s : GraphInterface) (position : Q2) : Option Nat :=
  vertexAtAux position 0 s.vertex_properties

/-- `f32::MAX`, the sentinel returned by `distance_to_line` for a degenerate
(zero-length) segment, as an exact rational. -/
def FMAX : ℚ := (2 ^ 24 - 1) * 2 ^ 104

/-- The comparison `distance_to_line(line_start, line_end, point) < width`
from src/graph_interface.rs, over exact arithmetic.  The source computes
`|c| / sqrt(a² + b²)` and returns `f32::MAX` when the root is zero; here the
nondegenerate comparison `|c| / root < width` is expressed without square
roots as `0 < width ∧ c² < width² · (a² + b²)`, which is equivalent over the
reals since `|c| ≥ 0` and `root > 0`. -/
def distance_to_line_lt (line_start line_end point : Q2) (width : ℚ) : Bool :=
  let a := line_end.x - line_start.x
  let b := line_end.y - line_start.y
  let c := a * (line_start.y - point.y) - (line_start.x - point.x) * b
  if a * a + b * b = 0 then decide (FMAX < width)
  else decide (0 < width ∧ c * c < width * width * (a * a + b * b))

/-- Search loop of `get_edge_at_position`: first edge (ascending) whose
bounding box contains the point and whose line distance is below its width.
`dest` stands for the source's `end` (a Lean keyword). -/
def edgeAtAux (s : GraphInterface) (position : Q2) : Nat → List EdgeProperties → Option Nat
  | _, [] => none
  | index, ep :: rest =>
    let start := s.get_position ep.vertices.1
    let dest := s.get_position ep.vertices.2
    let width := ep.width
    let min_x := min start.x dest.x - width
    let max_x := max start.x dest.x + width
    let min_y := min start.y dest.y - width
    let max_y := max start.y dest.y + width
    if (min_x ≤ position.x ∧ position.x ≤ max_x) ∧ (min_y ≤ position.y ∧ position.y ≤ max_y)
    then
      if distance_to_line_lt start dest position width then some index
      else edgeAtAux s position (index + 1) rest
    else edgeAtAux s position (index + 1) rest

/-- `GraphInterface::get_edge_at_position`. -/
def GraphInterface.get_edge_at_position (s : GraphInterface) (position : Q2) : Option Nat :=
  edgeAtAux s position 0 s.edge_properties

/-- Models `vertex_properties.get_mut(i).unwrap().cycle_drawstate()`.  The
out-of-range case (a panic in the source) is modelled as the identity; the
hovered index is proved in range below, so the case is unreachable. -/
def cycleVertexDrawState (l : List VertexProperties) (i : Nat) : List VertexProperties :=
  match l.get? i with
  | some vp => l.set i { vp with draw_state := vp.draw_state.cycle }
  | none => l

/-- Models `edge_properties.get_mut(i).unwrap().cycle_drawstate()`; see
`cycleVertexDrawState`. -/
def cycleEdgeDrawState (l : List EdgeProperties) (i : Nat) : List EdgeProperties :=
  match l.get? i with
  | some ep => l.set i { ep with draw_state := ep.draw_state.cycle }
  | none => l

/-- `GraphInterface::handle_mouse_input`, with the classifier's
`mouse_drag()` / `mouse_click()` results and the mouse position taken from
the pointer sample `m`. -/
def GraphInterface.handle_mouse_input (s : GraphInterface) (m : MouseSample) : GraphInterface :=
  match s.drag_state with
  | some ds =>
    if m.drag then
      let delta := m.position - ds.2
      let old_pos := s.get_position ds.1
      let s' := s.set_position ds.1 (old_pos + delta)
      { s' with drag_state := some (ds.1, m.position) }
    else
      { s with drag_state := none, dragged_vertex := none }
  | none =>
    let hovered_vertex := s.get_vertex_at_position m.position
    let hovered_edge := s.get_edge_at_position m.position
    let s1 :=
      if ¬ m.drag then { s with hovered_vertex := hovered_vertex }
      else
        match hovered_vertex with
        | some dv =>
          { s with hovered_vertex := none, dragged_vertex := some dv,
                   drag_state := some (dv, m.position) }
        | none => { s with hovered_vertex := none }
    let s2 :=
      if hovered_vertex.isNone then { s1 with hovered_edge := hovered_edge }
      else { s1 with hovered_edge := none }
    if m.click then
      let s3 :=
        match s2.hovered_vertex with
        | some i => { s2 with vertex_properties := cycleVertexDrawState s2.vertex_properties i }
        | none => s2
      match s3.hovered_edge with
      | some j => { s3 with edge_properties := cycleEdgeDrawState s3.edge_properties j }
      | none => s3
    else s2

/-- One iteration of the `apply_forces` loop: skip the dragged vertex, else
add the force and clamp to the canvas rectangle `[0,0] × [W,H]`
(`main_screen_width()` and `screen_height()` are external; they enter as the
parameters `W`, `H`). -/
def applyForceStep (W H : ℚ) (s : GraphInterface) (vertex : Nat) (force : Q2) :
    GraphInterface :=
  if s.dragged_vertex = some vertex then s
  else
    let old_position := s.get_position vertex
    let new_position := old_position + force
    let clamped_position := Q2.clamp new_position Q2.zero ⟨W, H⟩
    s.set_position vertex clamped_position

/-- The enumerated loop of `GraphInterface::apply_forces`. -/
def applyForcesLoop (W H : ℚ) : GraphInterface → Nat → List Q2 → GraphInterface
  | s, _, [] => s
  | s, vertex, force :: rest =>
    applyForcesLoop W H (applyForceStep W H s vertex force) (vertex + 1) rest

/-- `GraphInterface::apply_forces`: a no-op (with a logged warning) when the
force array length mismatches the vertex collection length. -/
def GraphInterface.apply_forces (W H : ℚ) (s : GraphInterface) (forces : List Q2) :
    GraphInterface :=
  if forces.length ≠ s.vertex_properties.length then s
  else applyForcesLoop W H s 0 forces

/-- `GraphInterface::update_edges`: rebuild the edge state collection from
the graph's edge list with default style; nothing else changes. -/
def GraphInterface.update_edges (s : GraphInterface) (graph : Graph) : GraphInterface :=
  { s with edge_properties :=
      graph.edges.map (fun e => { EdgeProperties.default with vertices := e }) }

/-- The edge restyling shared by `set_next_highlighting` and
`set_previous_highlighting`: edges of the target graph become `Highlighted`,
all others `Default`. -/
def applyHighlight (graph : Graph) (eps : List EdgeProperties) : List EdgeProperties :=
  eps.map (fun ep =>
    if graph.edges.contains ep.vertices then { ep with draw_state := .Highlighted }
    else { ep with draw_state := .Default })

/-- One beyond the largest `usize` value; Rust release-mode integer
arithmetic wraps modulo this. -/
def USIZE : Nat := 2 ^ 64

/-- `GraphInterface::set_next_highlighting`.  The `usize` increment
`index + 1` wraps modulo `2^64`. -/
def GraphInterface.set_next_highlighting (s : GraphInterface) : GraphInterface :=
  let target_index :=
    match s.current_highlight_graph with
    | some index => (index + 1) % USIZE
    | none => 0
  if h : target_index < s.highlight_graph_history.length then
    { s with
        current_highlight_graph := some target_index,
        edge_properties :=
          applyHighlight (s.highlight_graph_history.get ⟨target_index, h⟩) s.edge_properties }
  else s

/-- `GraphInterface::set_previous_highlighting`.  The `usize` decrements
`index - 1` and `len() - 1` wrap modulo `2^64` (release semantics), so an
underflow produces `2^64 - 1`, which then fails the bounds guard. -/
def GraphInterface.set_previous_highlighting (s : GraphInterface) : GraphInterface :=
  let target_index :=
    match s.current_highlight_graph with
    | some index => (index + (USIZE - 1)) % USIZE
    | none => (s.highlight_graph_history.length + (USIZE - 1)) % USIZE
  if h : target_index < s.highlight_graph_history.length then
    { s with
        current_highlight_graph := some target_index,
        edge_properties :=
          applyHighlight (s.highlight_graph_history.get ⟨target_index, h⟩) s.edge_properties }
  else s

/-- `SVGWriter` from src/svg_writer.rs. -/
structure SVGWriter where
  svg_string : String
  indentation_level : Nat
  indentation_size : Nat
  has_header : Bool
  finalised : Bool
deriving DecidableEq

/-- `SVGWriterError` from src/svg_writer.rs.  `FileIOError` wraps an external
`std::io::Error` and is outside the model (file IO is not modelled). -/
inductive SVGWriterError where
  | MissingHeader
  | AlreadyHasHeader
  | AlreadyFinalised
  | NotFinalised
  | UnexpectedIndentationLevel (expected found : Nat)
deriving DecidableEq

/-- `SVGWriter::new()`. -/
def SVGWriter.new : SVGWriter := ⟨"", 0, 4, false, false⟩

/-- `XML_HEADER` constant from src/svg_writer.rs. -/
def XML_HEADER : String := "<?xml version=\"1.0\" encoding=\"UTF-8\" standalone=\"no\"?>"

/-- `DOCSTRING` constant from src/svg_writer.rs. -/
def DOCSTRING : String := "<!-- Created with GraphDrs -->"

/-- The `format!` padding `\x7b:2$\x7d` of `add_item`: a run of spaces of the
given length. -/
def indentation (n : Nat) : String := String.mk (List.replicate n ' ')

/-- Rust `str::lines()`: split on newline, with a final trailing newline not
producing an extra empty line. -/
def strLines (s : String) : List String :=
  match (s.splitOn "\n").reverse with
  | "" :: rest => rest.reverse
  | parts => parts.reverse

/-- `SVGWriter::add_item`.  Rust methods mutate `self` and return
`Result<(), SVGWriterError>`; each operation is modelled as
state in, (state, optional error) out, so an early `return Err(..)` is a
result whose state component is the input state.  The generic `T: SVGItem`
item enters as its rendered `to_svg_string()` text. -/
def SVGWriter.add_item (s : SVGWriter) (item : String) : SVGWriter × Option SVGWriterError :=
  if ¬ s.has_header then (s, some .MissingHeader)
  else if s.finalised then (s, some .AlreadyFinalised)
  else
    let rendered := String.join ((strLines item).map
      (fun line => indentation (s.indentation_level * s.indentation_size) ++ line ++ "\n"))
    ({ s with svg_string := s.svg_string ++ rendered }, none)

/-- The `viewBox` item written by `write_header` (`SVGViewBox`'s
`to_svg_string`); numeric formatting of the width and height is abstracted
by `toString` on `ℚ`, which is irrelevant to the protocol claims. -/
def viewBoxString (width height : ℚ) : String :=
  "viewBox=\"0 0 " ++ toString width ++ " " ++ toString height ++ "\""

/-- `SVGWriter::write_header`: guard, then push the XML header, docstring and
`<svg` opener, bump the nesting level, set the header flag, and emit three
attribute items through `add_item`, propagating any error (`?`). -/
def SVGWriter.write_header (s : SVGWriter) (width height : ℚ) :
    SVGWriter × Option SVGWriterError :=
  if s.has_header then (s, some .AlreadyHasHeader)
  else
    let s1 := { s with
      svg_string := s.svg_string ++ XML_HEADER ++ "\n" ++ DOCSTRING ++ "\n" ++ "\n" ++ "<svg\n",
      indentation_level := s.indentation_level + 1,
      has_header := true }
    match s1.add_item (viewBoxString width height) with
    | (s2, some e) => (s2, some e)
    | (s2, none) =>
      match s2.add_item "version=\"1.1\"" with
      | (s3, some e) => (s3, some e)
      | (s3, none) =>
        match s3.add_item "xmlns=\"http://www.w3.org/2000/svg\">" with
        | (s4, some e) => (s4, some e)
        | (s4, none) => (s4, none)

/-- `SVGWriter::finalise`. -/
def SVGWriter.finalise (s : SVGWriter) : SVGWriter × Option SVGWriterError :=
  if ¬ s.has_header then (s, some .MissingHeader)
  else if s.finalised then (s, some .AlreadyFinalised)
  else if s.indentation_level ≠ 1 then
    (s, some (.UnexpectedIndentationLevel 1 s.indentation_level))
  else
    ({ s with indentation_level := s.indentation_level - 1,
              svg_string := s.svg_string ++ "</svg>\n",
              finalised := true }, none)

/-- The protocol check of `SVGWriter::write_to_file` (which takes `&self` and
never mutates the writer); the subsequent file IO is external to the model.
A `none` result means the call proceeds to the filesystem. -/
def SVGWriter.write_to_file_check (s : SVGWriter) : Option SVGWriterError :=
  if ¬ s.finalised then some .NotFinalised else none

/-- One call of the writer's mutating API, for defining reachable states. -/
inductive SVGOp where
  | header (width height : ℚ)
  | item (content : String)
  | fin

/-- Run one writer call on a state. -/
def runOp (s : SVGWriter) : SVGOp → SVGWriter × Option SVGWriterError
  | .header w h => s.write_header w h
  | .item c => s.add_item c
  | .fin => s.finalise

/-- Run a sequence of writer calls, keeping the state across failed calls
exactly as the Rust caller does. -/
def runOps (s : SVGWriter) : List SVGOp → SVGWriter
  | [] => s
  | op :: rest => runOps (runOp s op).1 rest

/-- A writer state reachable from `SVGWriter::new()` by some call sequence. -/
def SVGReachable (s : SVGWriter) : Prop := ∃ ops, runOps SVGWriter.new ops = s

instance {ε α : Type} [DecidableEq ε] [DecidableEq α] : DecidableEq (Except ε α) :=
  fun a b =>
    match a, b with
    | .error e, .error f =>
      if h : e = f then .isTrue (by rw [h])
      else .isFalse (fun hh => h (Except.error.inj hh))
    | .error _, .ok _ => .isFalse (fun hh => Except.noConfusion hh)
    | .ok _, .error _ => .isFalse (fun hh => Except.noConfusion hh)
    | .ok x, .ok y =>
      if h : x = y then .isTrue (by rw [h])
      else .isFalse (fun hh => h (Except.ok.inj hh))

/-- A cursor that, when set, points inside the history, as every reachable
`GraphInterface` state maintains. -/
def WFCursor (s : GraphInterface) : Prop :=
  ∀ i, s.current_highlight_graph = some i → i < s.highlight_graph_history.length

lemma usize_pos : 0 < USIZE := by
  have : (0 : ℕ) < 2 := by norm_num
  exact pow_pos this 64

lemma usize_sub_one_mod : (USIZE - 1) % USIZE = USIZE - 1 :=
  Nat.mod_eq_of_lt (Nat.sub_lt usize_pos one_pos)

/-- The first-match search reports only in-range indices (counted from its
start index). -/
lemma vertexAtAux_bounds (p : Q2) :
    ∀ (l : List VertexProperties) (k i : Nat),
      vertexAtAux p k l = some i → k ≤ i ∧ i < k + l.length := by
  intro l
  induction l with
  | nil => intro k i h; simp [vertexAtAux] at h
  | cons vp rest ih =>
    intro k i h
    by_cases hh : vertexHit p vp
    · simp [vertexAtAux, hh] at h
      subst h
      simp
    · simp only [vertexAtAux, hh, if_false, Bool.false_eq_true] at h
      have := ih (k + 1) i h
      constructor
      · omega
      · simp only [List.length_cons]
        omega

/-- The edge search likewise reports only in-range indices. -/
lemma edgeAtAux_bounds (s : GraphInterface) (p : Q2) :
    ∀ (l : List EdgeProperties) (k i : Nat),
      edgeAtAux s p k l = some i → k ≤ i ∧ i < k + l.length := by
  intro l
  induction l with
  | nil => intro k i h; simp [edgeAtAux] at h
  | cons ep rest ih =>
    intro k i h
    simp only [edgeAtAux] at h
    split at h
    · split at h
      · have := Option.some.inj h
        subst this
        simp
      · have := ih (k + 1) i h
        simp only [List.length_cons]
        omega
    · have := ih (k + 1) i h
      simp only [List.length_cons]
      omega

lemma get_vertex_at_position_lt (s : GraphInterface) (p : Q2) (i : Nat)
    (h : s.get_vertex_at_position p = some i) : i < s.vertex_properties.length := by
  have := vertexAtAux_bounds p s.vertex_properties 0 i h
  omega

lemma get_edge_at_position_lt (s : GraphInterface) (p : Q2) (i : Nat)
    (h : s.get_edge_at_position p = some i) : i < s.edge_properties.length := by
  have := edgeAtAux_bounds s p s.edge_properties 0 i h
  omega

lemma set_next_highlighting_wf (s : GraphInterface) (hwf : WFCursor s) :
    WFCursor s.set_next_highlighting := by
  cases hc : s.current_highlight_graph with
  | none =>
    simp only [GraphInterface.set_next_highlighting, hc]
    split
    next h =>
      intro i hi
      simp only [Option.some.injEq] at hi
      subst hi
      exact h
    next h => exact hwf
  | some j =>
    simp only [GraphInterface.set_next_highlighting, hc]
    split
    next h =>
      intro i hi
      simp only [Option.some.injEq] at hi
      subst hi
      exact h
    next h => exact hwf

lemma set_previous_highlighting_wf (s : GraphInterface) (hwf : WFCursor s) :
    WFCursor s.set_previous_highlighting := by
  cases hc : s.current_highlight_graph with
  | none =>
    simp only [GraphInterface.set_previous_highlighting, hc]
    split
    next h =>
      intro i hi
      simp only [Option.some.injEq] at hi
      subst hi
      exact h
    next h => exact hwf
  | some j =>
    simp only [GraphInterface.set_previous_highlighting, hc]
    split
    next h =>
      intro i hi
      simp only [Option.some.injEq] at hi
      subst hi
      exact h
    next h => exact hwf

/-- C1: highlight-history navigation is bounds-safe.  `previous()` with the
cursor at index 0 (the `usize` decrement wraps to `2^64 - 1`, which fails the
bounds guard), `previous()` on an empty history with an unset cursor, and
`next()` with the cursor at the last index are all no-ops: the state —
cursor, history entries and every edge draw state — is returned unchanged.
The hypothesis `hlen` states that the history length fits in a `usize`, as
any Rust `Vec` length does. -/
theorem C1_history_navigation_bounds_safe (s : GraphInterface)
    (hlen : s.highlight_graph_history.length < USIZE) :
    (s.current_highlight_graph = some 0 → s.set_previous_highlighting = s) ∧
    (s.current_highlight_graph = none → s.highlight_graph_history = [] →
      s.set_previous_highlighting = s) ∧
    (∀ i, s.current_highlight_graph = some i →
      i + 1 = s.highlight_graph_history.length → s.set_next_highlighting = s) := by
  have hnotlt : ¬ (USIZE - 1) % USIZE < s.highlight_graph_history.length := by
    rw [usize_sub_one_mod]
    omega
  refine ⟨?_, ?_, ?_⟩
  · intro h0
    unfold GraphInterface.set_previous_highlighting
    rw [h0]
    simp only [Nat.zero_add]
    rw [dif_neg hnotlt]
  · intro h0 hemp
    unfold GraphInterface.set_previous_highlighting
    rw [h0, hemp]
    simp only [List.length_nil, Nat.zero_add]
    rw [dif_neg (Nat.not_lt_zero _)]
  · intro i hi hlast
    unfold GraphInterface.set_next_highlighting
    rw [hi]
    have hmod : (i + 1) % USIZE = i + 1 := Nat.mod_eq_of_lt (by omega)
    simp only [hmod]
    rw [dif_neg (by omega)]

/-- Concrete interface state for the C1 witness: one-entry history, cursor at
index 0 (which is also the last index). -/
def navState : GraphInterface where
  vertex_properties := []
  edge_properties := [EdgeProperties.default]
  dragged_vertex := none
  hovered_vertex := none
  hovered_edge := none
  drag_state := none
  highlight_graph_history := [⟨2, [(0, 1)]⟩]
  current_highlight_graph := some 0

/-- Witness for C1 at a concrete state: both navigation calls are no-ops. -/
theorem C1_history_navigation_bounds_safe_witness :
    navState.set_previous_highlighting = navState ∧
    navState.set_next_highlighting = navState := by
  have h := C1_history_navigation_bounds_safe navState (by decide)
  exact ⟨h.1 rfl, h.2.2 0 rfl (by decide)⟩

/-- C2: no modelled engine operation panics.  The decoder is total with a
typed result on every byte string; the one unguarded slice index in
`parse_graph6_string` (line 21, byte 0) is reached only on nonempty input;
the hit-test results always index inside the respective collections, so the
two `unwrap()` calls in `handle_mouse_input` cannot fail; and history
navigation keeps a well-formed cursor from any well-formed state.  `usize`
and `u8` arithmetic is modelled with release-mode wrapping semantics. -/
theorem C2_no_panic :
    (∀ g6_bytes : List Nat, (∃ g, parse_graph6_string g6_bytes = .ok g) ∨
      (∃ e, parse_graph6_string g6_bytes = .error e)) ∧
    (∀ g6_bytes n, graph6_number_of_vertices g6_bytes = .ok n → g6_bytes ≠ []) ∧
    (∀ (s : GraphInterface) (p : Q2) (i : Nat),
      s.get_vertex_at_position p = some i → i < s.vertex_properties.length) ∧
    (∀ (s : GraphInterface) (p : Q2) (i : Nat),
      s.get_edge_at_position p = some i → i < s.edge_properties.length) ∧
    (∀ s : GraphInterface, WFCursor s →
      WFCursor s.set_next_highlighting ∧ WFCursor s.set_previous_highlighting) := by
  refine ⟨?_, ?_, get_vertex_at_position_lt, get_edge_at_position_lt, ?_⟩
  · intro g6_bytes
    cases h : parse_graph6_string g6_bytes with
    | ok g => exact .inl ⟨g, rfl⟩
    | error e => exact .inr ⟨e, rfl⟩
  · intro g6_bytes n h hemp
    subst hemp
    simp [graph6_number_of_vertices] at h
  · intro s hwf
    exact ⟨set_next_highlighting_wf s hwf, set_previous_highlighting_wf s hwf⟩

/-- Concrete interface state for the C2 witness: two vertices and one edge
between them. -/
def c2State : GraphInterface where
  vertex_properties := [⟨⟨0, 0⟩, 17, .Default⟩, ⟨⟨10, 0⟩, 17, .Default⟩]
  edge_properties := [⟨(0, 1), 5, .Default⟩]
  dragged_vertex := none
  hovered_vertex := none
  hovered_edge := none
  drag_state := none
  highlight_graph_history := []
  current_highlight_graph := none

lemma c2State_vertex_eval : c2State.get_vertex_at_position ⟨0, 0⟩ = some 0 := by
  norm_num [c2State, GraphInterface.get_vertex_at_position, vertexAtAux, vertexHit, distSq]

lemma c2State_edge_eval : c2State.get_edge_at_position ⟨5, 0⟩ = some 0 := by
  norm_num [c2State, GraphInterface.get_edge_at_position, edgeAtAux, GraphInterface.get_position,
    distance_to_line_lt]

/-- Witness for C2 at concrete inputs: the nonempty-input fact for a parsed
string, in-range hit-test results, and cursor preservation. -/
theorem C2_no_panic_witness :
    ([64, 95] : List Nat) ≠ [] ∧
    0 < c2State.vertex_properties.length ∧
    0 < c2State.edge_properties.length ∧
    WFCursor c2State.set_next_highlighting := by
  have h := C2_no_panic
  refine ⟨h.2.1 [64, 95] 1 (by decide), ?_, ?_, ?_⟩
  · exact h.2.2.1 c2State ⟨0, 0⟩ 0 c2State_vertex_eval
  · exact h.2.2.2.1 c2State ⟨5, 0⟩ 0 c2State_edge_eval
  · exact (h.2.2.2.2 c2State (fun i hi => Option.noConfusion hi)).1

/-- Well-formedness of decoded edges as the spec states it: smaller index
first, no self-loop, both endpoints inside the vertex count. -/
def edgesWellFormed (g : Graph) : Prop :=
  ∀ e ∈ g.edges, e.1 < e.2 ∧ e.2 < g.vertices

instance (g : Graph) : Decidable (edgesWellFormed g) := by
  unfold edgesWellFormed
  infer_instance

/-- Every edge pushed by the bit loop has its smaller endpoint first: the
loop maintains `current_neighbour < current_vertex`. -/
lemma stepBits_lt (vertices bits : Nat) :
    ∀ (masks : List Nat) (cv cn : Nat) (acc : List (Nat × Nat)),
      cn < cv → (∀ e ∈ acc, e.1 < e.2) →
      (∀ e ∈ (stepBits vertices bits masks cv cn acc).1, e.1 < e.2) ∧
      (stepBits vertices bits masks cv cn acc).2.2.1 <
        (stepBits vertices bits masks cv cn acc).2.1 := by
  intro masks
  induction masks with
  | nil =>
    intro cv cn acc hcn hacc
    exact ⟨hacc, hcn⟩
  | cons m rest ih =>
    intro cv cn acc hcn hacc
    simp only [stepBits]
    have hacc' : ∀ e ∈ (if Nat.land bits m ≠ 0 then acc ++ [(cn, cv)] else acc),
        e.1 < e.2 := by
      split
      · intro e he
        rcases List.mem_append.mp he with h | h
        · exact hacc e h
        · simp only [List.mem_singleton] at h
          subst h
          exact hcn
      · exact hacc
    by_cases hp : cv ≤ cn + 1
    · simp only [if_pos hp]
      by_cases hdone : vertices ≤ cv + 1
      · simp only [if_pos hdone]
        exact ⟨hacc', Nat.succ_pos cv⟩
      · simp only [if_neg hdone]
        exact ih (cv + 1) 0 _ (Nat.succ_pos cv) hacc'
    · simp only [if_neg hp]
      by_cases hdone : vertices ≤ cv
      · simp only [if_pos hdone]
        exact ⟨hacc', by omega⟩
      · simp only [if_neg hdone]
        exact ih cv (cn + 1) _ (by omega) hacc'

/-- When the loop starts below the vertex count, every pushed edge is fully
in range, and the vertex counter stays in range as long as the loop has not
signalled the outer break. -/
lemma stepBits_bounded (vertices bits : Nat) :
    ∀ (masks : List Nat) (cv cn : Nat) (acc : List (Nat × Nat)),
      cn < cv → cv < vertices →
      (∀ e ∈ acc, e.1 < e.2 ∧ e.2 < vertices) →
      (∀ e ∈ (stepBits vertices bits masks cv cn acc).1, e.1 < e.2 ∧ e.2 < vertices) ∧
      (stepBits vertices bits masks cv cn acc).2.2.1 <
        (stepBits vertices bits masks cv cn acc).2.1 ∧
      ((stepBits vertices bits masks cv cn acc).2.2.2 = false →
        (stepBits vertices bits masks cv cn acc).2.1 < vertices) := by
  intro masks
  induction masks with
  | nil =>
    intro cv cn acc hcn hv hacc
    exact ⟨hacc, hcn, fun _ => hv⟩
  | cons m rest ih =>
    intro cv cn acc hcn hv hacc
    simp only [stepBits]
    have hacc' : ∀ e ∈ (if Nat.land bits m ≠ 0 then acc ++ [(cn, cv)] else acc),
        e.1 < e.2 ∧ e.2 < vertices := by
      split
      · intro e he
        rcases List.mem_append.mp he with h | h
        · exact hacc e h
        · simp only [List.mem_singleton] at h
          subst h
          exact ⟨hcn, hv⟩
      · exact hacc
    by_cases hp : cv ≤ cn + 1
    · simp only [if_pos hp]
      by_cases hdone : vertices ≤ cv + 1
      · simp only [if_pos hdone]
        exact ⟨hacc', Nat.succ_pos cv, fun h => by simp at h⟩
      · simp only [if_neg hdone]
        exact ih (cv + 1) 0 _ (Nat.succ_pos cv) (by omega) hacc'
    · simp only [if_neg hp]
      by_cases hdone : vertices ≤ cv
      · simp only [if_pos hdone]
        exact ⟨hacc', by omega, fun h => by simp at h⟩
      · simp only [if_neg hdone]
        exact ih cv (cn + 1) _ (by omega) (by omega) hacc'

/-- Smaller-endpoint-first holds for the whole byte loop. -/
lemma parseBytes_lt (vertices : Nat) :
    ∀ (bytes : List Nat) (cv cn : Nat) (acc : List (Nat × Nat)),
      cn < cv → (∀ e ∈ acc, e.1 < e.2) →
      ∀ e ∈ parseBytes vertices bytes cv cn acc, e.1 < e.2 := by
  intro bytes
  induction bytes with
  | nil =>
    intro cv cn acc hcn hacc
    simpa [parseBytes] using hacc
  | cons b rest ih =>
    intro cv cn acc hcn hacc
    simp only [parseBytes]
    rcases hsb : stepBits vertices ((b + 193) % 256) bitMasks cv cn acc with
      ⟨acc', cv', cn', done⟩
    have h := stepBits_lt vertices ((b + 193) % 256) bitMasks cv cn acc hcn hacc
    rw [hsb] at h
    cases done with
    | true => simpa using h.1
    | false =>
      simp only [Bool.false_eq_true, if_false]
      exact ih cv' cn' acc' h.2 h.1

/-- Full in-range well-formedness for the byte loop, when it starts below
the vertex count. -/
lemma parseBytes_bounded (vertices : Nat) :
    ∀ (bytes : List Nat) (cv cn : Nat) (acc : List (Nat × Nat)),
      cn < cv → cv < vertices →
      (∀ e ∈ acc, e.1 < e.2 ∧ e.2 < vertices) →
      ∀ e ∈ parseBytes vertices bytes cv cn acc, e.1 < e.2 ∧ e.2 < vertices := by
  intro bytes
  induction bytes with
  | nil =>
    intro cv cn acc hcn hv hacc
    simpa [parseBytes] using hacc
  | cons b rest ih =>
    intro cv cn acc hcn hv hacc
    simp only [parseBytes]
    rcases hsb : stepBits vertices ((b + 193) % 256) bitMasks cv cn acc with
      ⟨acc', cv', cn', done⟩
    have h := stepBits_bounded vertices ((b + 193) % 256) bitMasks cv cn acc hcn hv hacc
    rw [hsb] at h
    cases done with
    | true => simpa using h.1
    | false =>
      simp only [Bool.false_eq_true, if_false]
      exact ih cv' cn' acc' h.2.1 (h.2.2 rfl) h.1

/-- C3 counterexample: the claim "every edge `(u, v)` of a successfully
decoded graph satisfies `u < v < vertex_count`" fails on the input
`"@_"` (bytes `[64, 95]`): the decoder returns vertex count 1 together with
the edge `(0, 1)`, whose second endpoint is out of range.  The push at
src/graph.rs line 45 happens before the `current_vertex >= vertices` break
is checked. -/
theorem C3_decoder_output_counterexample :
    parse_graph6_string [64, 95] = .ok ⟨1, [(0, 1)]⟩ ∧
    ¬ edgesWellFormed ⟨1, [(0, 1)]⟩ := by
  constructor
  · decide
  · decide

/-- C3 amended: on every accepted input, each decoded edge has its smaller
endpoint first (`u < v`); and whenever the decoded vertex count is at least
2, both endpoints are also below the vertex count.  (Only decoded vertex
counts 0 and 1 — necessarily from malformed inputs carrying spurious edge
bytes — can produce the out-of-range edge `(0, 1)`.) -/
theorem C3_decoder_output_well_formed (g6_bytes : List Nat) (g : Graph)
    (hok : parse_graph6_string g6_bytes = .ok g) :
    (∀ e ∈ g.edges, e.1 < e.2) ∧ (2 ≤ g.vertices → edgesWellFormed g) := by
  unfold parse_graph6_string at hok
  cases hnum : graph6_number_of_vertices g6_bytes with
  | error e =>
    rw [hnum] at hok
    exact absurd hok (by simp)
  | ok vertices =>
    rw [hnum] at hok
    simp only at hok
    by_cases h62 : vertices ≤ 62
    · rw [if_pos h62] at hok
      have hg := Except.ok.inj hok
      subst hg
      constructor
      · exact parseBytes_lt vertices _ 1 0 [] Nat.zero_lt_one (by simp)
      · intro h2
        have h2' : 2 ≤ vertices := h2
        exact parseBytes_bounded vertices _ 1 0 [] Nat.zero_lt_one (by omega) (by simp)
    · rw [if_neg h62] at hok
      by_cases h64 : vertices ≤ 64
      · rw [if_pos h64] at hok
        have hg := Except.ok.inj hok
        subst hg
        constructor
        · exact parseBytes_lt vertices _ 1 0 [] Nat.zero_lt_one (by simp)
        · intro h2
          have h2' : 2 ≤ vertices := h2
          exact parseBytes_bounded vertices _ 1 0 [] Nat.zero_lt_one (by omega) (by simp)
      · rw [if_neg h64] at hok
        exact absurd hok (by simp)

/-- Witness for the amended C3 at the accepted input `"A_"` (bytes
`[65, 95]`), which decodes to the single-edge graph on two vertices. -/
theorem C3_decoder_output_well_formed_witness :
    edgesWellFormed ⟨2, [(0, 1)]⟩ :=
  (C3_decoder_output_well_formed [65, 95] ⟨2, [(0, 1)]⟩ (by decide)).2 (by norm_num)

/-- The size reader only ever accepts `n ≤ 62` (size byte in `63..=125`) or,
through the wrapped `u8` subtraction on a size byte below 63 after a `>`
prefix, a value `≥ 193`; the extended-size marker `'~'` (126) is rejected
with `UnsupportedGraphSize`. -/
lemma graph6_number_of_vertices_range (g6_bytes : List Nat)
    (hb : ∀ b ∈ g6_bytes, b < 256) (n : Nat)
    (h : graph6_number_of_vertices g6_bytes = .ok n) : n ≤ 62 ∨ 193 ≤ n := by
  unfold graph6_number_of_vertices at h
  cases g6_bytes with
  | nil => exact absurd h (by simp)
  | cons start_char rest =>
    simp only at h
    split at h
    · exact absurd h (by simp)
    · split at h
      · exact absurd h (by simp)
      next b hget =>
        split at h
        next hblt =>
          have hbm : b < 256 := hb b (List.get?_mem hget)
          have hn := Except.ok.inj h
          subst hn
          omega
        next hblt => exact absurd h (by simp)

/-- C4: the decoder never accepts a vertex count above 62.  The
extended-size prefix `'~'` promised by the spec for 63- and 64-vertex graphs
is rejected immediately by `graph6_number_of_vertices` (src/graph.rs line
92) with `UnsupportedGraphSize (supported_size := 62)`, contradicting the
`vertices <= 64` branch and `supported_size: 64` error of
`parse_graph6_string` itself; the concrete input is the 4-byte extended-size
prefix `"~??~"` encoding `n = 63`.  Consequently no accepted input decodes
to vertex count 63 or 64. -/
theorem C4_decoder_size_limits :
    parse_graph6_string [126, 63, 63, 126] = .error (.UnsupportedGraphSize 62) ∧
    ∀ (g6_bytes : List Nat) (g : Graph), (∀ b ∈ g6_bytes, b < 256) →
      parse_graph6_string g6_bytes = .ok g → g.vertices ≤ 62 := by
  constructor
  · decide
  · intro g6_bytes g hb hok
    unfold parse_graph6_string at hok
    cases hnum : graph6_number_of_vertices g6_bytes with
    | error e =>
      rw [hnum] at hok
      exact absurd hok (by simp)
    | ok vertices =>
      rw [hnum] at hok
      simp only at hok
      rcases graph6_number_of_vertices_range g6_bytes hb vertices hnum with h62 | h193
      · rw [if_pos h62] at hok
        have hg := Except.ok.inj hok
        subst hg
        exact h62
      · rw [if_neg (by omega)] at hok
        rw [if_neg (by omega)] at hok
        exact absurd hok (by simp)

/-- Witness for C4's universal part at the accepted one-vertex input `"@"`. -/
theorem C4_decoder_size_limits_witness :
    (Graph.mk 1 []).vertices ≤ 62 :=
  C4_decoder_size_limits.2 [64] ⟨1, []⟩ (by decide) (by decide)

lemma set_position_dragged (s : GraphInterface) (v : Nat) (p : Q2) :
    (s.set_position v p).dragged_vertex = s.dragged_vertex := by
  unfold GraphInterface.set_position
  split <;> rfl

lemma set_position_length (s : GraphInterface) (v : Nat) (p : Q2)
    (h : v < s.vertex_properties.length) :
    (s.set_position v p).vertex_properties.length = s.vertex_properties.length := by
  unfold GraphInterface.set_position
  rw [dif_pos h]
  exact List.length_set _ _ _

lemma set_position_get_self (s : GraphInterface) (v : Nat) (p : Q2)
    (h : v < s.vertex_properties.length) :
    (s.set_position v p).vertex_properties.get? v =
      (s.vertex_properties.get? v).map (fun vp => { vp with position := p }) := by
  unfold GraphInterface.set_position
  rw [dif_pos h]
  simp only
  rw [List.get?_set_eq_of_lt _ h, List.get?_eq_get h]
  rfl

lemma set_position_get_ne (s : GraphInterface) (v : Nat) (p : Q2) (j : Nat)
    (hne : v ≠ j) (h : v < s.vertex_properties.length) :
    (s.set_position v p).vertex_properties.get? j = s.vertex_properties.get? j := by
  unfold GraphInterface.set_position
  rw [dif_pos h]
  exact List.get?_set_ne _ _ hne

lemma applyForceStep_dragged (W H : ℚ) (s : GraphInterface) (v : Nat) (f : Q2) :
    (applyForceStep W H s v f).dragged_vertex = s.dragged_vertex := by
  unfold applyForceStep
  split
  · rfl
  · exact set_position_dragged _ _ _

lemma applyForceStep_length (W H : ℚ) (s : GraphInterface) (v : Nat) (f : Q2)
    (h : v < s.vertex_properties.length) :
    (applyForceStep W H s v f).vertex_properties.length = s.vertex_properties.length := by
  unfold applyForceStep
  split
  · rfl
  · exact set_position_length _ _ _ h

lemma applyForceStep_get_ne (W H : ℚ) (s : GraphInterface) (v : Nat) (f : Q2) (j : Nat)
    (hne : v ≠ j) (h : v < s.vertex_properties.length) :
    (applyForceStep W H s v f).vertex_properties.get? j = s.vertex_properties.get? j := by
  unfold applyForceStep
  split
  · rfl
  · exact set_position_get_ne _ _ _ _ hne h

lemma applyForceStep_get_self (W H : ℚ) (s : GraphInterface) (v : Nat) (f : Q2)
    (h : v < s.vertex_properties.length) :
    (applyForceStep W H s v f).vertex_properties.get? v =
      if s.dragged_vertex = some v then s.vertex_properties.get? v
      else (s.vertex_properties.get? v).map
        (fun vp => { vp with position := Q2.clamp (vp.position + f) Q2.zero ⟨W, H⟩ }) := by
  unfold applyForceStep
  split
  next hd => rfl
  next hd =>
    dsimp only
    rw [set_position_get_self _ _ _ h]
    unfold GraphInterface.get_position
    rw [List.get?_eq_get h]
    rfl

/-- Specification of the enumerated integrator loop starting at index `k`
over a state whose vertex collection extends past the force list: lengths
and the dragged flag are preserved, entries outside `[k, k + forces.length)`
are untouched, and entry `k + i` becomes the clamped translate of its old
value unless it is the dragged vertex. -/
lemma applyForcesLoop_spec (W H : ℚ) :
    ∀ (forces : List Q2) (s : GraphInterface) (k : Nat),
      k + forces.length ≤ s.vertex_properties.length →
      ((applyForcesLoop W H s k forces).vertex_properties.length =
        s.vertex_properties.length) ∧
      ((applyForcesLoop W H s k forces).dragged_vertex = s.dragged_vertex) ∧
      (∀ j, j < k ∨ k + forces.length ≤ j →
        (applyForcesLoop W H s k forces).vertex_properties.get? j =
          s.vertex_properties.get? j) ∧
      (∀ i f, forces.get? i = some f →
        (applyForcesLoop W H s k forces).vertex_properties.get? (k + i) =
          if s.dragged_vertex = some (k + i) then s.vertex_properties.get? (k + i)
          else (s.vertex_properties.get? (k + i)).map
            (fun vp => { vp with position := Q2.clamp (vp.position + f) Q2.zero ⟨W, H⟩ })) := by
  intro forces
  induction forces with
  | nil =>
    intro s k hbound
    refine ⟨rfl, rfl, fun j _ => rfl, fun i f hif => by simp at hif⟩
  | cons f0 rest ih =>
    intro s k hbound
    have hk : k < s.vertex_properties.length := by
      simp only [List.length_cons] at hbound
      omega
    have hlen' : (applyForceStep W H s k f0).vertex_properties.length =
        s.vertex_properties.length := applyForceStep_length W H s k f0 hk
    have hdrag' : (applyForceStep W H s k f0).dragged_vertex = s.dragged_vertex :=
      applyForceStep_dragged W H s k f0
    have hbound' : (k + 1) + rest.length ≤
        (applyForceStep W H s k f0).vertex_properties.length := by
      rw [hlen']
      simp only [List.length_cons] at hbound
      omega
    obtain ⟨ihlen, ihdrag, ihout, ihat⟩ := ih (applyForceStep W H s k f0) (k + 1) hbound'
    have hloop : applyForcesLoop W H s k (f0 :: rest) =
        applyForcesLoop W H (applyForceStep W H s k f0) (k + 1) rest := rfl
    refine ⟨?_, ?_, ?_, ?_⟩
    · rw [hloop, ihlen, hlen']
    · rw [hloop, ihdrag, hdrag']
    · intro j hj
      have hj1 : j < k + 1 ∨ (k + 1) + rest.length ≤ j := by
        simp only [List.length_cons] at hj
        omega
      have hjk : k ≠ j := by
        simp only [List.length_cons] at hj
        omega
      rw [hloop, ihout j hj1, applyForceStep_get_ne W H s k f0 j hjk hk]
    · intro i f hif
      cases i with
      | zero =>
        have hf : f0 = f := Option.some.inj hif
        subst hf
        have hout : (applyForcesLoop W H (applyForceStep W H s k f0) (k + 1)
            rest).vertex_properties.get? k =
            (applyForceStep W H s k f0).vertex_properties.get? k :=
          ihout k (.inl (by omega))
        have hmain : (applyForcesLoop W H s k (f0 :: rest)).vertex_properties.get? k =
            if s.dragged_vertex = some k then s.vertex_properties.get? k
            else (s.vertex_properties.get? k).map
              (fun vp => { vp with position := Q2.clamp (vp.position + f0) Q2.zero ⟨W, H⟩ }) := by
          rw [hloop, hout, applyForceStep_get_self W H s k f0 hk]
        exact hmain
      | succ i' =>
        have hidx : k + (i' + 1) = (k + 1) + i' := by omega
        have hstep : ∀ j, k ≠ j → (applyForceStep W H s k f0).vertex_properties.get? j =
            s.vertex_properties.get? j :=
          fun j hj => applyForceStep_get_ne W H s k f0 j hj hk
        have := ihat i' f hif
        rw [hdrag', hstep ((k + 1) + i') (by omega)] at this
        rw [hloop, hidx]
        exact this

/-- C5: `apply_forces` postcondition.  A mismatched force-array length makes
the pass a no-op; otherwise lengths are preserved, the dragged vertex's
entry is untouched, every other vertex's new entry is its old one with the
position translated by its force and clamped to `[0,W] × [0,H]`, and (for a
nonempty canvas) every such resulting position lies inside the canvas
rectangle. -/
theorem C5_apply_forces_postcondition (W H : ℚ) (s : GraphInterface) (forces : List Q2) :
    (forces.length ≠ s.vertex_properties.length → s.apply_forces W H forces = s) ∧
    (forces.length = s.vertex_properties.length →
      (s.apply_forces W H forces).vertex_properties.length =
        s.vertex_properties.length ∧
      (∀ j, s.dragged_vertex = some j →
        (s.apply_forces W H forces).vertex_properties.get? j =
          s.vertex_properties.get? j) ∧
      (∀ j vp f, s.dragged_vertex ≠ some j →
        s.vertex_properties.get? j = some vp → forces.get? j = some f →
        (s.apply_forces W H forces).vertex_properties.get? j =
          some { vp with position := Q2.clamp (vp.position + f) Q2.zero ⟨W, H⟩ }) ∧
      (0 ≤ W → 0 ≤ H → ∀ j vp', s.dragged_vertex ≠ some j →
        (s.apply_forces W H forces).vertex_properties.get? j = some vp' →
        0 ≤ vp'.position.x ∧ vp'.position.x ≤ W ∧
        0 ≤ vp'.position.y ∧ vp'.position.y ≤ H)) := by
  constructor
  · intro hne
    unfold GraphInterface.apply_forces
    rw [if_pos hne]
  · intro hlen
    have hrw : s.apply_forces W H forces = applyForcesLoop W H s 0 forces := by
      unfold GraphInterface.apply_forces
      rw [if_neg (by omega)]
    obtain ⟨hL, hD, hout, hat⟩ :=
      applyForcesLoop_spec W H forces s 0 (by omega)
    have hself : ∀ j vp f, s.dragged_vertex ≠ some j →
        s.vertex_properties.get? j = some vp → forces.get? j = some f →
        (s.apply_forces W H forces).vertex_properties.get? j =
          some { vp with position := Q2.clamp (vp.position + f) Q2.zero ⟨W, H⟩ } := by
      intro j vp f hdj hvp hf
      have := hat j f hf
      rw [Nat.zero_add] at this
      rw [hrw, this, if_neg hdj, hvp]
      rfl
    refine ⟨by rw [hrw]; exact hL, ?_, hself, ?_⟩
    · intro j hdj
      by_cases hj : j < forces.length
      · have hf : ∃ f, forces.get? j = some f := by
          rw [List.get?_eq_get hj]
          exact ⟨_, rfl⟩
        obtain ⟨f, hf⟩ := hf
        have := hat j f hf
        rw [Nat.zero_add] at this
        rw [hrw, this, if_pos hdj]
      · have := hout j (.inr (by omega))
        rw [hrw, this]
    · intro hW hH j vp' hdj hvp'
      have hjlt : j < s.vertex_properties.length := by
        by_contra hc
        have := hout j (.inr (by omega))
        rw [hrw, this] at hvp'
        rw [List.get?_eq_none.mpr (by omega)] at hvp'
        exact Option.noConfusion hvp'
      obtain ⟨vp, hvp⟩ : ∃ vp, s.vertex_properties.get? j = some vp := by
        rw [List.get?_eq_get hjlt]
        exact ⟨_, rfl⟩
      obtain ⟨f, hf⟩ : ∃ f, forces.get? j = some f := by
        rw [List.get?_eq_get (by omega : j < forces.length)]
        exact ⟨_, rfl⟩
      have hj := hself j vp f hdj hvp hf
      rw [hj] at hvp'
      have hvpeq := Option.some.inj hvp'
      subst hvpeq
      have hx := And.intro (le_min (le_max_right (vp.position.x + f.x) 0) hW)
        (min_le_right (max (vp.position.x + f.x) 0) W)
      have hy := And.intro (le_min (le_max_right (vp.position.y + f.y) 0) hH)
        (min_le_right (max (vp.position.y + f.y) 0) H)
      exact ⟨hx.1, hx.2, hy.1, hy.2⟩

/-- Concrete state for the C5 witness: vertex 0 is dragged, vertex 1 gets a
large force pushing it far outside the 10 by 10 canvas. -/
def c5State : GraphInterface where
  vertex_properties := [⟨⟨1, 1⟩, 17, .Default⟩, ⟨⟨20, -3⟩, 17, .Default⟩]
  edge_properties := []
  dragged_vertex := some 0
  hovered_vertex := none
  hovered_edge := none
  drag_state := none
  highlight_graph_history := []
  current_highlight_graph := none

def c5Forces : List Q2 := [⟨5, 5⟩, ⟨100, 100⟩]

/-- Witness for C5: the dragged vertex 0 is untouched, vertex 1 is
translated and clamped. -/
theorem C5_apply_forces_postcondition_witness :
    (c5State.apply_forces 10 10 c5Forces).vertex_properties.get? 0 =
      c5State.vertex_properties.get? 0 ∧
    (c5State.apply_forces 10 10 c5Forces).vertex_properties.get? 1 =
      some ⟨Q2.clamp (Q2.mk 20 (-3) + Q2.mk 100 100) Q2.zero ⟨10, 10⟩, 17, .Default⟩ := by
  have h := C5_apply_forces_postcondition 10 10 c5State c5Forces
  obtain ⟨_, hfix, hupd, _⟩ := h.2 rfl
  exact ⟨hfix 0 rfl, hupd 1 ⟨⟨20, -3⟩, 17, .Default⟩ ⟨100, 100⟩ (by decide) rfl rfl⟩

/-- C6: `update_edges` is a frame-respecting edge-only update: the whole
vertex-state collection (hence every vertex position) and the interaction
fields are untouched, and the new edge-state collection has exactly one
entry per edge of the new graph with matching endpoints in order. -/
theorem C6_update_edges_frame (s : GraphInterface) (graph : Graph) :
    (s.update_edges graph).vertex_properties = s.vertex_properties ∧
    (s.update_edges graph).dragged_vertex = s.dragged_vertex ∧
    (s.update_edges graph).edge_properties.length = graph.edges.length ∧
    (s.update_edges graph).edge_properties.map EdgeProperties.vertices = graph.edges := by
  refine ⟨rfl, rfl, ?_, ?_⟩
  · unfold GraphInterface.update_edges
    simp [List.length_map]
  · unfold GraphInterface.update_edges
    simp only [List.map_map]
    have : (EdgeProperties.vertices ∘ fun e => { EdgeProperties.default with vertices := e }) =
        fun e : Nat × Nat => e := rfl
    rw [this]
    exact List.map_id _

/-- The draw-state projections of the interface state, used to express "some
vertex (edge) draw state changed". -/
def vertexDrawStates (s : GraphInterface) : List DrawState :=
  s.vertex_properties.map VertexProperties.draw_state

def edgeDrawStates (s : GraphInterface) : List DrawState :=
  s.edge_properties.map EdgeProperties.draw_state

lemma set_position_edges (s : GraphInterface) (v : Nat) (p : Q2) :
    (s.set_position v p).edge_properties = s.edge_properties := by
  unfold GraphInterface.set_position
  split <;> rfl

/-- Mutual exclusion at a click: any single `handle_mouse_input` call leaves
either all edge draw states or all vertex draw states unchanged, because
edge hover is only computed when no vertex is hovered. -/
lemma handle_mouse_input_exclusion (s : GraphInterface) (m : MouseSample) :
    edgeDrawStates (s.handle_mouse_input m) = edgeDrawStates s ∨
    vertexDrawStates (s.handle_mouse_input m) = vertexDrawStates s := by
  unfold GraphInterface.handle_mouse_input
  cases hds : s.drag_state with
  | some ds =>
    cases hdrag : m.drag with
    | true =>
      left
      show edgeDrawStates { s.set_position ds.1 (s.get_position ds.1 + (m.position - ds.2)) with
          drag_state := some (ds.1, m.position) } = edgeDrawStates s
      simp only [edgeDrawStates, set_position_edges]
    | false =>
      left
      rfl
  | none =>
    cases hclick : m.click with
    | false =>
      cases hdrag : m.drag with
      | true =>
        cases hv : s.get_vertex_at_position m.position with
        | some dv => left; rfl
        | none => left; rfl
      | false =>
        cases hv : s.get_vertex_at_position m.position with
        | some dv => left; rfl
        | none => left; rfl
    | true =>
      cases hdrag : m.drag with
      | true =>
        cases hv : s.get_vertex_at_position m.position with
        | some dv => left; rfl
        | none =>
          cases he : s.get_edge_at_position m.position with
          | some j => right; rfl
          | none => right; rfl
      | false =>
        cases hv : s.get_vertex_at_position m.position with
        | some dv => left; rfl
        | none =>
          cases he : s.get_edge_at_position m.position with
          | some j => right; rfl
          | none => right; rfl

/-- C7 counterexample: the claim that a hovered vertex and a hovered edge
"may both cycle independently in the same click" is false — no state and no
pointer sample can change a vertex draw state and an edge draw state in the
same `handle_mouse_input` call, because `hovered_edge` is set to `None`
whenever a vertex is hovered (src/graph_interface.rs lines 257-261). -/
theorem C7_click_both_cycle_counterexample :
    ¬ ∃ (s : GraphInterface) (m : MouseSample),
      vertexDrawStates (s.handle_mouse_input m) ≠ vertexDrawStates s ∧
      edgeDrawStates (s.handle_mouse_input m) ≠ edgeDrawStates s := by
  rintro ⟨s, m, hv, he⟩
  rcases handle_mouse_input_exclusion s m with h | h
  · exact he h
  · exact hv h

/-- C7 amended: on a click sample (no drag in progress, classifier reports a
click and not a drag), the handler cycles the draw state of the hovered
vertex if there is one; otherwise it cycles the draw state of the hovered
edge if there is one; a vertex and an edge never both cycle on the same
click. -/
theorem C7_click_cycles_hovered (s : GraphInterface) (m : MouseSample)
    (hds : s.drag_state = none) (hclick : m.click = true) (hdrag : m.drag = false) :
    ((s.handle_mouse_input m).vertex_properties =
      match s.get_vertex_at_position m.position with
      | some i => cycleVertexDrawState s.vertex_properties i
      | none => s.vertex_properties) ∧
    ((s.handle_mouse_input m).edge_properties =
      match s.get_vertex_at_position m.position with
      | some _ => s.edge_properties
      | none =>
        match s.get_edge_at_position m.position with
        | some j => cycleEdgeDrawState s.edge_properties j
        | none => s.edge_properties) := by
  unfold GraphInterface.handle_mouse_input
  rw [hds, hclick, hdrag]
  cases hv : s.get_vertex_at_position m.position with
  | some i => exact ⟨rfl, rfl⟩
  | none =>
    cases he : s.get_edge_at_position m.position with
    | some j => exact ⟨rfl, rfl⟩
    | none => exact ⟨rfl, rfl⟩

/-- Concrete state for the C7 witness: one vertex under the pointer and one
(degenerate, never hovered) edge. -/
def c7State : GraphInterface where
  vertex_properties := [⟨⟨0, 0⟩, 17, .Default⟩]
  edge_properties := [⟨(0, 0), 5, .Default⟩]
  dragged_vertex := none
  hovered_vertex := none
  hovered_edge := none
  drag_state := none
  highlight_graph_history := []
  current_highlight_graph := none

/-- A pointer sample at the origin on which the classifier fires a click. -/
def c7Sample : MouseSample := ⟨⟨0, 0⟩, false, true⟩

/-- Witness for the amended C7: the hovered vertex 0 cycles, edges are left
alone. -/
theorem C7_click_cycles_hovered_witness :
    (c7State.handle_mouse_input c7Sample).vertex_properties =
      cycleVertexDrawState c7State.vertex_properties 0 ∧
    (c7State.handle_mouse_input c7Sample).edge_properties = c7State.edge_properties := by
  have h := C7_click_cycles_hovered c7State c7Sample rfl rfl rfl
  have hv : c7State.get_vertex_at_position c7Sample.position = some 0 := by
    norm_num [c7State, c7Sample, GraphInterface.get_vertex_at_position, vertexAtAux,
      vertexHit, distSq]
  rw [hv] at h
  exact h

/-- If some list entry passes the hit test, the first-match search reports a
hit at an index no larger than that entry's. -/
lemma vertexAtAux_le (p : Q2) :
    ∀ (l : List VertexProperties) (k j : Nat) (vpj : VertexProperties),
      l.get? j = some vpj → vertexHit p vpj = true →
      ∃ i, vertexAtAux p k l = some i ∧ i ≤ k + j := by
  intro l
  induction l with
  | nil =>
    intro k j vpj hget
    simp at hget
  | cons vp rest ih =>
    intro k j vpj hget hhit
    by_cases hv : vertexHit p vp
    · exact ⟨k, by simp [vertexAtAux, hv], by omega⟩
    · cases j with
      | zero =>
        have hvp : vp = vpj := Option.some.inj hget
        subst hvp
        exact absurd hhit (by simpa using hv)
      | succ j' =>
        have hget' : rest.get? j' = some vpj := hget
        obtain ⟨i, hi, hle⟩ := ih (k + 1) j' vpj hget' hhit
        refine ⟨i, ?_, by omega⟩
        simp only [vertexAtAux, hv, if_false, Bool.false_eq_true]
        exact hi

/-- When no earlier entry passes the hit test, the search reports exactly
the given entry's index. -/
lemma vertexAtAux_first (p : Q2) :
    ∀ (l : List VertexProperties) (k j : Nat) (vpj : VertexProperties),
      l.get? j = some vpj → vertexHit p vpj = true →
      (∀ j' vp', j' < j → l.get? j' = some vp' → vertexHit p vp' = false) →
      vertexAtAux p k l = some (k + j) := by
  intro l
  induction l with
  | nil =>
    intro k j vpj hget
    simp at hget
  | cons vp rest ih =>
    intro k j vpj hget hhit hfirst
    cases j with
    | zero =>
      have hvp : vp = vpj := Option.some.inj hget
      subst hvp
      simp [vertexAtAux, hhit]
    | succ j' =>
      have h0 : vertexHit p vp = false := hfirst 0 vp (Nat.succ_pos j') rfl
      have ihres := ih (k + 1) j' vpj hget hhit
        (fun j'' vp'' hlt hg => hfirst (j'' + 1) vp'' (by omega) hg)
      have hidx : k + (j' + 1) = (k + 1) + j' := by omega
      rw [hidx]
      simp only [vertexAtAux, h0, if_false, Bool.false_eq_true]
      exact ihres

/-- Conversely, when the first-match search reports an index, every entry
strictly before it failed the hit test. -/
lemma vertexAtAux_earlier_not_hit (p : Q2) :
    ∀ (l : List VertexProperties) (k i : Nat), vertexAtAux p k l = some i →
      ∀ (j : Nat) (vpj : VertexProperties), k + j < i → l.get? j = some vpj →
        vertexHit p vpj = false := by
  intro l
  induction l with
  | nil =>
    intro k i h
    simp [vertexAtAux] at h
  | cons vp rest ih =>
    intro k i h j vpj hlt hget
    by_cases hv : vertexHit p vp
    · have hk : k = i := by simpa [vertexAtAux, hv] using h
      exact absurd hlt (by omega)
    · have h' : vertexAtAux p (k + 1) rest = some i := by
        simpa [vertexAtAux, hv] using h
      cases j with
      | zero =>
        have hvp : vp = vpj := Option.some.inj hget
        subst hvp
        simpa using hv
      | succ j' =>
        exact ih (k + 1) i h' j' vpj (by omega) hget

/-- Concrete state for the C8 counterexample: two vertices stored at the
same position with positive hit radius. -/
def c8State : GraphInterface where
  vertex_properties := [⟨⟨0, 0⟩, 1, .Default⟩, ⟨⟨0, 0⟩, 1, .Default⟩]
  edge_properties := []
  dragged_vertex := none
  hovered_vertex := none
  hovered_edge := none
  drag_state := none
  highlight_graph_history := []
  current_highlight_graph := none

/-- C8 counterexample: vertex 1 has positive radius and the query point is
exactly its stored position, yet `get_vertex_at_position` does not report
vertex 1 — the overlapping vertex 0 is found first (ties break to the lowest
index). -/
theorem C8_hit_test_counterexample :
    c8State.vertex_properties.get? 1 = some ⟨⟨0, 0⟩, 1, .Default⟩ ∧
    (0 : ℚ) < 1 ∧
    c8State.get_vertex_at_position ⟨0, 0⟩ ≠ some 1 := by
  refine ⟨rfl, by norm_num, ?_⟩
  have h : c8State.get_vertex_at_position ⟨0, 0⟩ = some 0 := by
    norm_num [c8State, GraphInterface.get_vertex_at_position, vertexAtAux, vertexHit, distSq]
  rw [h]
  simp

/-- C8 amended: querying `vertex_at` at vertex `i`'s stored position (with
positive hit radius) always reports a hit, at some index `j ≤ i`; it reports
vertex `i` itself exactly when no vertex of smaller index also contains the
point within its hit radius. -/
theorem C8_hit_test_amended (s : GraphInterface) (i : Nat) (vp : VertexProperties)
    (hget : s.vertex_properties.get? i = some vp) (hr : 0 < vp.radius) :
    (∃ j, j ≤ i ∧ s.get_vertex_at_position vp.position = some j) ∧
    ((∀ j vpj, j < i → s.vertex_properties.get? j = some vpj →
        vertexHit vp.position vpj = false) ↔
      s.get_vertex_at_position vp.position = some i) := by
  have h0 : distSq vp.position vp.position = 0 := by simp [distSq]
  have hhit : vertexHit vp.position vp = true := by
    unfold vertexHit
    rw [h0]
    simp only [decide_eq_true_eq]
    exact ⟨hr, mul_pos hr hr⟩
  constructor
  · obtain ⟨j, hj, hle⟩ := vertexAtAux_le vp.position s.vertex_properties 0 i vp hget hhit
    exact ⟨j, by omega, hj⟩
  · constructor
    · intro hfirst
      have h := vertexAtAux_first vp.position s.vertex_properties 0 i vp hget hhit
        (fun j' vp' hlt hg => hfirst j' vp' hlt hg)
      simpa using h
    · intro hrep j vpj hj hgetj
      exact vertexAtAux_earlier_not_hit vp.position s.vertex_properties 0 i hrep j vpj
        (by omega) hgetj

/-- Concrete state for the C8 witness: a single vertex away from the
origin. -/
def c8wState : GraphInterface where
  vertex_properties := [⟨⟨3, 4⟩, 2, .Default⟩]
  edge_properties := []
  dragged_vertex := none
  hovered_vertex := none
  hovered_edge := none
  drag_state := none
  highlight_graph_history := []
  current_highlight_graph := none

/-- Witness for the amended C8: with no earlier vertex, the query at vertex
0's exact position reports vertex 0. -/
theorem C8_hit_test_amended_witness :
    c8wState.get_vertex_at_position ⟨3, 4⟩ = some 0 := by
  have h := C8_hit_test_amended c8wState 0 ⟨⟨3, 4⟩, 2, .Default⟩ rfl (by norm_num)
  exact h.2.mp (fun j vpj hj _ => absurd hj (Nat.not_lt_zero j))

lemma add_item_flags (s : SVGWriter) (item : String) :
    (s.add_item item).1.has_header = s.has_header ∧
    (s.add_item item).1.finalised = s.finalised ∧
    (s.add_item item).1.indentation_level = s.indentation_level := by
  unfold SVGWriter.add_item
  split
  · exact ⟨rfl, rfl, rfl⟩
  · split
    · exact ⟨rfl, rfl, rfl⟩
    · exact ⟨rfl, rfl, rfl⟩

/-- The invariant of every reachable writer state: a finalised document has
a header (so `AlreadyFinalised`, not `MissingHeader`, is what a finalised
writer reports, and `write_header` can never fail after mutating). -/
def SVGInv (s : SVGWriter) : Prop := s.finalised = true → s.has_header = true

lemma write_header_inv (s : SVGWriter) (w h : ℚ) (hinv : SVGInv s) :
    SVGInv (s.write_header w h).1 := by
  unfold SVGWriter.write_header
  split
  · exact hinv
  next hh =>
    dsimp only
    set s1 : SVGWriter := { s with
      svg_string := s.svg_string ++ XML_HEADER ++ "\n" ++ DOCSTRING ++ "\n" ++ "\n" ++ "<svg\n",
      indentation_level := s.indentation_level + 1,
      has_header := true } with hs1
    split
    next s2 e2 heq2 =>
      intro _
      have hc := (add_item_flags s1 (viewBoxString w h)).1
      rw [heq2] at hc
      rw [hc]
    next s2 heq2 =>
      have hc2 := (add_item_flags s1 (viewBoxString w h)).1
      rw [heq2] at hc2
      split
      next s3 e3 heq3 =>
        intro _
        have hc3 := (add_item_flags s2 "version=\"1.1\"").1
        rw [heq3] at hc3
        rw [hc3, hc2]
      next s3 heq3 =>
        have hc3 := (add_item_flags s2 "version=\"1.1\"").1
        rw [heq3] at hc3
        split
        next s4 e4 heq4 =>
          intro _
          have hc4 := (add_item_flags s3 "xmlns=\"http://www.w3.org/2000/svg\">").1
          rw [heq4] at hc4
          rw [hc4, hc3, hc2]
        next s4 heq4 =>
          intro _
          have hc4 := (add_item_flags s3 "xmlns=\"http://www.w3.org/2000/svg\">").1
          rw [heq4] at hc4
          rw [hc4, hc3, hc2]

lemma add_item_inv (s : SVGWriter) (item : String) (hinv : SVGInv s) :
    SVGInv (s.add_item item).1 := by
  intro hfin
  obtain ⟨hh, hf, _⟩ := add_item_flags s item
  rw [hh]
  exact hinv (by rw [← hf]; exact hfin)

lemma finalise_inv (s : SVGWriter) (hinv : SVGInv s) : SVGInv (s.finalise).1 := by
  unfold SVGWriter.finalise
  split
  · exact hinv
  · split
    · exact hinv
    · split
      · exact hinv
      next hh _ _ =>
        intro _
        simpa using hh

lemma runOps_inv : ∀ (ops : List SVGOp) (s : SVGWriter), SVGInv s → SVGInv (runOps s ops) := by
  intro ops
  induction ops with
  | nil => exact fun s h => h
  | cons op rest ih =>
    intro s hinv
    refine ih (runOp s op).1 ?_
    cases op with
    | header w h => exact write_header_inv s w h hinv
    | item c => exact add_item_inv s c hinv
    | fin => exact finalise_inv s hinv

lemma reachable_inv (s : SVGWriter) (h : SVGReachable s) : SVGInv s := by
  obtain ⟨ops, hops⟩ := h
  rw [← hops]
  exact runOps_inv ops SVGWriter.new (fun hf => Bool.noConfusion hf)

/-- C9: the exporter protocol.  For every reachable writer state: an item
before the header fails with `MissingHeader`; a second header fails with
`AlreadyHasHeader`; an item or a finalisation after finalisation fails with
`AlreadyFinalised`; finalisation away from the top nesting level fails with
`UnexpectedIndentationLevel`; writing to file before finalisation fails with
`NotFinalised` (and `finalise` before any header fails with
`MissingHeader`).  Every failing call returns the input state unchanged as
its state component. -/
theorem C9_svg_writer_protocol (s : SVGWriter) (hreach : SVGReachable s) :
    (∀ item, s.has_header = false → s.add_item item = (s, some .MissingHeader)) ∧
    (∀ w h, s.has_header = true → s.write_header w h = (s, some .AlreadyHasHeader)) ∧
    (∀ item, s.finalised = true → s.add_item item = (s, some .AlreadyFinalised)) ∧
    (s.finalised = true → s.finalise = (s, some .AlreadyFinalised)) ∧
    (s.has_header = true → s.finalised = false → s.indentation_level ≠ 1 →
      s.finalise = (s, some (.UnexpectedIndentationLevel 1 s.indentation_level))) ∧
    (s.finalised = false → s.write_to_file_check = some .NotFinalised) ∧
    (s.has_header = false → s.finalise = (s, some .MissingHeader)) := by
  have hinv := reachable_inv s hreach
  refine ⟨?_, ?_, ?_, ?_, ?_, ?_, ?_⟩
  · intro item hh
    unfold SVGWriter.add_item
    rw [if_pos (by simp [hh])]
  · intro w h hh
    unfold SVGWriter.write_header
    rw [if_pos hh]
  · intro item hfin
    have hh : s.has_header = true := hinv hfin
    unfold SVGWriter.add_item
    rw [if_neg (by simp [hh]), if_pos hfin]
  · intro hfin
    have hh : s.has_header = true := hinv hfin
    unfold SVGWriter.finalise
    rw [if_neg (by simp [hh]), if_pos hfin]
  · intro hh hfin hlvl
    unfold SVGWriter.finalise
    rw [if_neg (by simp [hh]), if_neg (by simp [hfin]), if_pos hlvl]
  · intro hfin
    unfold SVGWriter.write_to_file_check
    rw [if_pos (by simp [hfin])]
  · intro hh
    unfold SVGWriter.finalise
    rw [if_pos (by simp [hh])]

/-- Witness for C9 at the freshly created writer: an item before the header
is rejected with the state unchanged, and writing to file before
finalisation is rejected. -/
theorem C9_svg_writer_protocol_witness :
    SVGWriter.new.add_item "<x/>" = (SVGWriter.new, some .MissingHeader) ∧
    SVGWriter.new.write_to_file_check = some .NotFinalised := by
  have h := C9_svg_writer_protocol SVGWriter.new ⟨[], rfl⟩
  exact ⟨h.1 "<x/>" rfl, h.2.2.2.2.2.1 rfl⟩

/-- The edge search only reports edges that passed the line-distance test. -/
lemma edgeAtAux_spec (s : GraphInterface) (p : Q2) :
    ∀ (l : List EdgeProperties) (k i : Nat),
      edgeAtAux s p k l = some i →
      ∃ (j : Nat) (ep : EdgeProperties), l.get? j = some ep ∧ i = k + j ∧
        distance_to_line_lt (s.get_position ep.vertices.1) (s.get_position ep.vertices.2)
          p ep.width = true := by
  intro l
  induction l with
  | nil =>
    intro k i h
    simp [edgeAtAux] at h
  | cons ep rest ih =>
    intro k i h
    simp only [edgeAtAux] at h
    split at h
    · split at h
      next hdist =>
        have hi := Option.some.inj h
        exact ⟨0, ep, rfl, by omega, hdist⟩
      next hdist =>
        obtain ⟨j, ep', hget, hidx, hd⟩ := ih (k + 1) i h
        exact ⟨j + 1, ep', hget, by omega, hd⟩
    · obtain ⟨j, ep', hget, hidx, hd⟩ := ih (k + 1) i h
      exact ⟨j + 1, ep', hget, by omega, hd⟩

/-- C10: degenerate edges are never hit.  Whenever `get_edge_at_position`
reports an edge (and all stored edge widths are finite `f32` values, i.e.
at most `f32::MAX`), that edge's two endpoint positions differ: a
zero-length segment gets line distance `f32::MAX`, which fails the
`distance < width` test at every pointer position. -/
theorem C10_degenerate_edges_never_hit (s : GraphInterface) (p : Q2) (i : Nat)
    (hw : ∀ ep ∈ s.edge_properties, ep.width ≤ FMAX)
    (hsome : s.get_edge_at_position p = some i) :
    ∃ ep, s.edge_properties.get? i = some ep ∧
      s.get_position ep.vertices.1 ≠ s.get_position ep.vertices.2 := by
  obtain ⟨j, ep, hget, hidx, hd⟩ := edgeAtAux_spec s p s.edge_properties 0 i hsome
  have hj : i = j := by omega
  refine ⟨ep, by rw [hj]; exact hget, ?_⟩
  intro heq
  have hwep : ep.width ≤ FMAX := hw ep (List.get?_mem hget)
  unfold distance_to_line_lt at hd
  rw [heq] at hd
  norm_num at hd
  exact absurd hd (not_lt.mpr hwep)

/-- Concrete state for the C10 witness: a genuine horizontal edge that the
pointer at its midpoint does hit. -/
def c10State : GraphInterface where
  vertex_properties := [⟨⟨0, 0⟩, 17, .Default⟩, ⟨⟨10, 0⟩, 17, .Default⟩]
  edge_properties := [⟨(0, 1), 5, .Default⟩]
  dragged_vertex := none
  hovered_vertex := none
  hovered_edge := none
  drag_state := none
  highlight_graph_history := []
  current_highlight_graph := none

lemma c10State_edge_eval : c10State.get_edge_at_position ⟨5, 0⟩ = some 0 := by
  norm_num [c10State, GraphInterface.get_edge_at_position, edgeAtAux,
    GraphInterface.get_position, distance_to_line_lt]

/-- Witness for C10: the edge reported at the pointer has distinct endpoint
positions. -/
theorem C10_degenerate_edges_never_hit_witness :
    c10State.edge_properties.get? 0 = some ⟨(0, 1), 5, .Default⟩ ∧
    c10State.get_position 0 ≠ c10State.get_position 1 := by
  obtain ⟨ep, hep, hne⟩ := C10_degenerate_edges_never_hit c10State ⟨5, 0⟩ 0
    (by norm_num [c10State, FMAX]) c10State_edge_eval
  have hepeq : (⟨(0, 1), 5, .Default⟩ : EdgeProperties) = ep := by
    have h0 : c10State.edge_properties.get? 0 = some ⟨(0, 1), 5, .Default⟩ := rfl
    exact Option.some.inj (h0.symm.trans hep)
  subst hepeq
  exact ⟨rfl, hne⟩

end GraphDrs
